import Mathlib

/-!
Verification development for the dabl core: a shallow embedding of the
column-type detector, the cleaning policy, the pipeline synthesizer and the
plot dispatcher, together with proofs of the behavioural properties stated
in the specification.  The Python modules implementing these components are
not part of the packaged source tree available here (only the packaging
metadata is), so every operation below is modelled from the specification
text, as recorded in each doc comment.
-/

namespace Dabl

/-- Modelled from the spec: a scalar cell value of a table column is a
number, a string, or the missing-marker. -/
inductive Value where
  | num (q : ℚ)
  | str (s : String)
  | missing
deriving DecidableEq

/-- Modelled from the spec: a named, ordered sequence of scalar values. -/
structure Column where
  name : String
  values : List Value
deriving DecidableEq

/-- Modelled from the spec: a table is an ordered collection of named
columns. -/
structure Table where
  cols : List Column
deriving DecidableEq

/-- Modelled from the spec: the closed set of semantic column types. -/
inductive ColumnType where
  | continuous
  | dirty_float
  | categorical
  | low_card_int
  | high_card_categorical
  | free_text
  | date
  | useless
  | target
deriving DecidableEq

/-- Modelled from the spec: a TypeMap maps column names to column types,
in the table's column order. -/
abbrev TypeMap := List (String × ColumnType)

/-- First type assigned to a name in a TypeMap, if any. -/
def lookupTM (m : TypeMap) (n : String) : Option ColumnType :=
  match m with
  | [] => none
  | (k, v) :: rest => if k = n then some v else lookupTM rest n

/-- First column of a given name in a column list, if any. -/
def findColL (cols : List Column) (n : String) : Option Column :=
  match cols with
  | [] => none
  | c :: rest => if c.name = n then some c else findColL rest n

/-- Whether a value is the missing-marker. -/
def Value.isMissing : Value → Bool
  | .missing => true
  | _ => false

/-- Decimal digit value of a character, if it is a digit. -/
def digitVal (c : Char) : Option ℕ :=
  if 48 ≤ c.toNat ∧ c.toNat ≤ 57 then some (c.toNat - 48) else none

/-- Left-to-right accumulation of decimal digits. -/
def parseDigitsAux (acc : ℕ) : List Char → Option ℕ
  | [] => some acc
  | c :: rest =>
      match digitVal c with
      | some d => parseDigitsAux (acc * 10 + d) rest
      | none => none

/-- Parse a nonempty all-digit character list as a natural number. -/
def parseNatC (cs : List Char) : Option ℕ :=
  if cs.isEmpty then none else parseDigitsAux 0 cs

/-- Parse an optionally-negated digit string as an integer. -/
def parseIntC : List Char → Option ℤ
  | [] => none
  | c :: rest =>
      if c = '-' then (parseNatC rest).map (fun n => -(n : ℤ))
      else (parseNatC (c :: rest)).map (fun n => (n : ℤ))

/-- Modelled from the spec: numeric parse of a string value (integer-valued
strings parse; other strings do not). -/
def parseNum (s : String) : Option ℚ :=
  (parseIntC s.data).map (fun z => mkRat z 1)

/-- Numeric reading of a value, when one exists. -/
def Value.toNum : Value → Option ℚ
  | .num q => some q
  | .str s => parseNum s
  | .missing => none

/-- Whether a value is parseable as a number. -/
def Value.numOk (v : Value) : Bool :=
  v.toNum.isSome

/-- Whether a value is an integer (parseable as a number with denominator one). -/
def Value.isInt (v : Value) : Bool :=
  match v.toNum with
  | some q => q.den = 1
  | none => false

/-- Whether a value is a floating-point (non-integer) number. -/
def Value.isFloat (v : Value) : Bool :=
  match v with
  | .num q => decide (q.den ≠ 1)
  | _ => false

/-- Modelled from the spec: date parse of a value (a ten-character string
of digits with exactly two dash separators). -/
def dateOk (v : Value) : Bool :=
  match v with
  | .str s =>
      s.data.length = 10 && (s.data.filter (fun c => c == '-')).length = 2
        && s.data.all (fun c => c == '-' || (digitVal c).isSome)
  | _ => false

/-- Display length of a value, used for the short-token test. -/
def tokenLen : Value → ℕ
  | .str s => s.data.length
  | .num _ => 1
  | .missing => 0

/-- Modelled from the spec: the configuration surface of recognized policy
constants (thresholds are explicit values, not hidden state). -/
structure Config where
  numThresh : ℚ
  dateThresh : ℚ
  catRatio : ℚ
  catCap : ℕ
  lowCardCap : ℕ
  missCutoff : ℚ
  shortTokenLen : ℕ
deriving DecidableEq

/-- Sensible default policy constants, as suggested by the spec. -/
def defaultConfig : Config :=
  ⟨mkRat 95 100, mkRat 95 100, mkRat 9 10, 30, 10, mkRat 9 10, 20⟩

/-- The non-missing values of a column. -/
def nonMissing (vs : List Value) : List Value :=
  vs.filter (fun v => !v.isMissing)

/-- Cardinality: number of distinct non-missing values. -/
def cardOf (vs : List Value) : ℕ :=
  (nonMissing vs).dedup.length

/-- Fraction of non-missing values parseable as a number. -/
def numFracOf (vs : List Value) : ℚ :=
  mkRat (((nonMissing vs).filter Value.numOk).length : ℤ) (nonMissing vs).length

/-- Fraction of non-missing values parseable as a date. -/
def dateFracOf (vs : List Value) : ℚ :=
  mkRat (((nonMissing vs).filter dateOk).length : ℤ) (nonMissing vs).length

/-- Whether all non-missing values are integers. -/
def allIntOf (vs : List Value) : Bool :=
  (nonMissing vs).all Value.isInt

/-- Whether some non-missing value is floating-point. -/
def anyFloatOf (vs : List Value) : Bool :=
  (nonMissing vs).any Value.isFloat

/-- Whether all non-missing values are short tokens. -/
def shortTokOf (cfg : Config) (vs : List Value) : Bool :=
  (nonMissing vs).all (fun v => tokenLen v ≤ cfg.shortTokenLen)

/-- Modelled from the spec: the per-column decision procedure of the type
detector — an ordered sequence of predicate-to-type rules, first match wins. -/
def detectColumn (cfg : Config) (vs : List Value) : ColumnType :=
  if cardOf vs ≤ 1 then .useless
  else if cardOf vs = vs.length ∧ anyFloatOf vs = false then .useless
  else if allIntOf vs = false ∧ cfg.numThresh ≤ numFracOf vs then
    (if numFracOf vs < 1 then .dirty_float else .continuous)
  else if allIntOf vs = true ∧ cardOf vs ≤ cfg.lowCardCap then .low_card_int
  else if cfg.dateThresh ≤ dateFracOf vs then .date
  else if mkRat (cardOf vs : ℤ) vs.length < cfg.catRatio ∧ cardOf vs ≤ cfg.catCap then
    .categorical
  else if shortTokOf cfg vs = true then .high_card_categorical
  else .free_text

/-- Modelled from the spec: the type assigned to one column — a forced hint
is copied verbatim, the designated target column is tagged `target`, and
otherwise the decision procedure runs. -/
def detectOne (cfg : Config) (hints : TypeMap) (tgt : Option String) (c : Column) : ColumnType :=
  match lookupTM hints c.name with
  | some ty => ty
  | none => if tgt = some c.name then .target else detectColumn cfg c.values

/-- Modelled from the spec: `TypeDetector.detect` assigns a type to every
column of the table, in table column order. -/
def detect (cfg : Config) (t : Table) (hints : TypeMap) (tgt : Option String) : TypeMap :=
  t.cols.map (fun c => (c.name, detectOne cfg hints tgt c))

/-! ### Basic lemmas about lookups and the detector -/

lemma lookupTM_map_col (f : Column → ColumnType) :
    ∀ (cols : List Column) (n : String),
      lookupTM (cols.map fun c => (c.name, f c)) n = (findColL cols n).map f := by
  intro cols n
  induction cols with
  | nil => rfl
  | cons c rest ih =>
      simp only [List.map_cons, lookupTM, findColL]
      by_cases h : c.name = n
      · simp [h]
      · simp [h, ih]

lemma findColL_name : ∀ (cols : List Column) (n : String) (c : Column),
    findColL cols n = some c → c.name = n := by
  intro cols n c h
  induction cols with
  | nil => simp [findColL] at h
  | cons d rest ih =>
      simp only [findColL] at h
      by_cases hd : d.name = n
      · rw [if_pos hd] at h
        cases h
        exact hd
      · rw [if_neg hd] at h
        exact ih h

lemma columnType_closed (ty : ColumnType) :
    ty = ColumnType.continuous ∨ ty = ColumnType.dirty_float ∨ ty = ColumnType.categorical ∨
    ty = ColumnType.low_card_int ∨ ty = ColumnType.high_card_categorical ∨
    ty = ColumnType.free_text ∨ ty = ColumnType.date ∨ ty = ColumnType.useless ∨
    ty = ColumnType.target := by
  cases ty <;> simp

/-- C1: `detect` returns a TypeMap that is total over the table's columns —
its keys are exactly the table's column names in order — and every assigned
value belongs to the closed ColumnType set. -/
theorem dabl_C1 (cfg : Config) (t : Table) (hints : TypeMap) (tgt : Option String) :
    (detect cfg t hints tgt).map Prod.fst = t.cols.map Column.name ∧
    ∀ p ∈ detect cfg t hints tgt,
      p.2 = ColumnType.continuous ∨ p.2 = ColumnType.dirty_float ∨
      p.2 = ColumnType.categorical ∨ p.2 = ColumnType.low_card_int ∨
      p.2 = ColumnType.high_card_categorical ∨ p.2 = ColumnType.free_text ∨
      p.2 = ColumnType.date ∨ p.2 = ColumnType.useless ∨ p.2 = ColumnType.target := by
  constructor
  · simp [detect, List.map_map, Function.comp]
  · intro p _
    exact columnType_closed p.2

def tW1 : Table := ⟨[⟨"a", [.num 0, .num 1, .num 2]⟩]⟩

/-- Witness for C1 at a concrete one-column table. -/
theorem dabl_C1_w :
    (detect defaultConfig tW1 [] none).map Prod.fst = tW1.cols.map Column.name ∧
    (("a", ColumnType.useless).2 = ColumnType.continuous ∨
     ("a", ColumnType.useless).2 = ColumnType.dirty_float ∨
     ("a", ColumnType.useless).2 = ColumnType.categorical ∨
     ("a", ColumnType.useless).2 = ColumnType.low_card_int ∨
     ("a", ColumnType.useless).2 = ColumnType.high_card_categorical ∨
     ("a", ColumnType.useless).2 = ColumnType.free_text ∨
     ("a", ColumnType.useless).2 = ColumnType.date ∨
     ("a", ColumnType.useless).2 = ColumnType.useless ∨
     ("a", ColumnType.useless).2 = ColumnType.target) :=
  ⟨(dabl_C1 defaultConfig tW1 [] none).1,
   (dabl_C1 defaultConfig tW1 [] none).2 ("a", ColumnType.useless) (by decide)⟩

/-- C2: a forced entry in `type_hints` bypasses inference entirely — for any
table, any hints, and any column present in both, `detect` assigns exactly
the hinted type. -/
theorem dabl_C2 (cfg : Config) (t : Table) (hints : TypeMap) (tgt : Option String)
    (n : String) (c : Column) (ty : ColumnType)
    (hc : findColL t.cols n = some c) (hh : lookupTM hints n = some ty) :
    lookupTM (detect cfg t hints tgt) n = some ty := by
  unfold detect
  rw [lookupTM_map_col, hc]
  have hn : c.name = n := findColL_name t.cols n c hc
  simp [detectOne, hn, hh]

def tW2 : Table := ⟨[⟨"a", [.num 0, .num 1, .num 2]⟩]⟩

/-- Witness for C2: hinting the identifier-like column `a` as continuous
overrides the inferred `useless`. -/
theorem dabl_C2_w :
    lookupTM (detect defaultConfig tW2 [("a", ColumnType.continuous)] none) "a"
      = some ColumnType.continuous :=
  dabl_C2 defaultConfig tW2 [("a", ColumnType.continuous)] none "a"
    ⟨"a", [.num 0, .num 1, .num 2]⟩ ColumnType.continuous (by decide) (by decide)

lemma nonMissing_of_all_strings (vs : List Value)
    (h : ∀ v ∈ vs, ∃ s, v = Value.str s) : nonMissing vs = vs := by
  refine List.filter_eq_self.mpr ?_
  intro v hv
  rcases h v hv with ⟨s, rfl⟩
  rfl

lemma cardOf_le_length_nonMissing (vs : List Value) :
    cardOf vs ≤ (nonMissing vs).length :=
  (List.dedup_sublist (nonMissing vs)).length_le

/-- C3: the detector never fails — an empty table yields an empty TypeMap,
an all-missing column resolves to `useless`, and a column of long
unparseable non-date strings with cardinality above the categorical cap
resolves to the fallback `free_text` (or `useless` when identifier-like). -/
theorem dabl_C3 (cfg : Config) :
    (∀ hints tgt, detect cfg ⟨[]⟩ hints tgt = []) ∧
    (∀ vs : List Value, (∀ v ∈ vs, v = Value.missing) →
      detectColumn cfg vs = ColumnType.useless) ∧
    (∀ vs : List Value,
      (∀ v ∈ vs, ∃ s, v = Value.str s ∧ parseNum s = none ∧
        dateOk (Value.str s) = false ∧ cfg.shortTokenLen < s.length) →
      0 < cfg.numThresh → 0 < cfg.dateThresh → 1 ≤ cfg.catCap →
      cfg.catCap < cardOf vs →
      detectColumn cfg vs = ColumnType.free_text ∨
      detectColumn cfg vs = ColumnType.useless) := by
  refine ⟨fun hints tgt => rfl, ?_, ?_⟩
  · intro vs h
    have hnm : nonMissing vs = [] := by
      refine List.filter_eq_nil_iff.mpr ?_
      intro v hv
      rw [h v hv]
      simp [Value.isMissing]
    have hcard : cardOf vs = 0 := by
      simp [cardOf, hnm]
    unfold detectColumn
    rw [if_pos (by omega : cardOf vs ≤ 1)]
  · intro vs h hnum hdate hcap hlt
    have hnm : nonMissing vs = vs :=
      nonMissing_of_all_strings vs (fun v hv => ⟨(h v hv).choose, (h v hv).choose_spec.1⟩)
    have hcard1 : 1 < cardOf vs := lt_of_le_of_lt hcap hlt
    have hvne : ∃ v, v ∈ vs := by
      have hlen : 2 ≤ vs.length := by
        have := cardOf_le_length_nonMissing vs
        rw [hnm] at this
        omega
      cases vs with
      | nil => simp at hlen
      | cons a l => exact ⟨a, List.mem_cons_self a l⟩
    have hnumfrac : numFracOf vs = 0 := by
      have hfil : (nonMissing vs).filter Value.numOk = [] := by
        rw [hnm]
        refine List.filter_eq_nil_iff.mpr ?_
        intro v hv
        rcases h v hv with ⟨s, rfl, hps, _, _⟩
        simp [Value.numOk, Value.toNum, hps]
      unfold numFracOf
      rw [hfil]
      simp
    have hdatefrac : dateFracOf vs = 0 := by
      have hfil : (nonMissing vs).filter dateOk = [] := by
        rw [hnm]
        refine List.filter_eq_nil_iff.mpr ?_
        intro v hv
        rcases h v hv with ⟨s, rfl, _, hds, _⟩
        simp [hds]
      unfold dateFracOf
      rw [hfil]
      simp
    have hallint : allIntOf vs = false := by
      rcases hvne with ⟨v, hv⟩
      rcases h v hv with ⟨s, hvs, hps, _, _⟩
      refine Bool.eq_false_iff.mpr ?_
      intro hall
      have := List.all_eq_true.mp (by rw [allIntOf, hnm] at hall; exact hall) v hv
      rw [hvs] at this
      simp [Value.isInt, Value.toNum, hps] at this
    have hshort : shortTokOf cfg vs = false := by
      rcases hvne with ⟨v, hv⟩
      rcases h v hv with ⟨s, hvs, _, _, hlen⟩
      refine Bool.eq_false_iff.mpr ?_
      intro hall
      have := List.all_eq_true.mp (by rw [shortTokOf, hnm] at hall; exact hall) v hv
      rw [hvs] at this
      simp [tokenLen] at this
      omega
    unfold detectColumn
    rw [if_neg (by omega : ¬ cardOf vs ≤ 1)]
    by_cases h2 : cardOf vs = vs.length ∧ anyFloatOf vs = false
    · rw [if_pos h2]
      right
      rfl
    · rw [if_neg h2,
        if_neg (by rw [hnumfrac]; rintro ⟨-, hle⟩; exact absurd hle (not_le.mpr hnum)),
        if_neg (by rw [hallint]; rintro ⟨hc, -⟩; cases hc),
        if_neg (by rw [hdatefrac]; exact not_le.mpr hdate),
        if_neg (by rintro ⟨-, hle⟩; omega),
        if_neg (by rw [hshort]; intro hc; cases hc)]
      left
      rfl

def cfgW3 : Config := ⟨mkRat 1 2, mkRat 1 2, mkRat 9 10, 1, 10, mkRat 9 10, 2⟩

def vsW3 : List Value := [.str "abc", .str "abd", .str "abc"]

/-- Witness for C3 at concrete inputs. -/
theorem dabl_C3_w :
    detect cfgW3 ⟨[]⟩ [] none = [] ∧
    detectColumn cfgW3 [Value.missing, Value.missing] = ColumnType.useless ∧
    (detectColumn cfgW3 vsW3 = ColumnType.free_text ∨
     detectColumn cfgW3 vsW3 = ColumnType.useless) :=
  ⟨(dabl_C3 cfgW3).1 [] none,
   (dabl_C3 cfgW3).2.1 [Value.missing, Value.missing] (by decide),
   (dabl_C3 cfgW3).2.2 vsW3
     (by
       intro v hv
       simp only [vsW3, List.mem_cons, List.not_mem_nil, or_false] at hv
       rcases hv with h | h | h <;> subst h
       · exact ⟨"abc", rfl, by decide, by decide, by decide⟩
       · exact ⟨"abd", rfl, by decide, by decide, by decide⟩
       · exact ⟨"abc", rfl, by decide, by decide, by decide⟩)
     (by decide) (by decide) (by decide) (by decide)⟩

/-- C4: a non-hinted, non-target column whose cardinality equals its row
count and whose values are not floating-point is assigned `useless`. -/
theorem dabl_C4 (cfg : Config) (t : Table) (hints : TypeMap) (tgt : Option String)
    (c : Column) (hc : c ∈ t.cols)
    (hh : lookupTM hints c.name = none) (ht : ¬ tgt = some c.name)
    (hcard : cardOf c.values = c.values.length) (hf : anyFloatOf c.values = false) :
    (c.name, ColumnType.useless) ∈ detect cfg t hints tgt := by
  unfold detect
  refine List.mem_map.mpr ⟨c, hc, ?_⟩
  have hdet : detectColumn cfg c.values = ColumnType.useless := by
    unfold detectColumn
    by_cases h1 : cardOf c.values ≤ 1
    · rw [if_pos h1]
    · rw [if_neg h1, if_pos ⟨hcard, hf⟩]
  simp [detectOne, hh, ht, hdet]

def tW4 : Table := ⟨[⟨"id", [.num 0, .num 1, .num 2]⟩]⟩

/-- Witness for C4: a row-index column is flagged useless. -/
theorem dabl_C4_w :
    ("id", ColumnType.useless) ∈ detect defaultConfig tW4 [] none :=
  dabl_C4 defaultConfig tW4 [] none ⟨"id", [.num 0, .num 1, .num 2]⟩
    (by decide) (by decide) (by decide) (by decide) (by decide)

/-! ### CleaningPolicy -/

/-- Modelled from the spec: per-column record of cleaning actions taken. -/
inductive CleanAction where
  | coerced (n : String)
  | flaggedMissing (n : String)
  | flaggedDup (n : String)
deriving DecidableEq

/-- Modelled from the spec: the CleaningReport is the list of actions. -/
abbrev CleaningReport := List CleanAction

/-- Result triple of `CleaningPolicy.clean`. -/
structure CleanResult where
  table : Table
  typeMap : TypeMap
  report : CleaningReport
deriving DecidableEq

/-- Modelled from the spec: coercion of one value of a dirty-float column —
numbers kept, parseable strings become their number, anything else becomes
the missing-marker. -/
def coerceVal : Value → Value
  | .num q => .num q
  | .str s =>
      match parseNum s with
      | some q => .num q
      | none => .missing
  | .missing => .missing

/-- Coerce a column when its assigned type is `dirty_float`. -/
def coerceCol (tm : TypeMap) (c : Column) : Column :=
  if lookupTM tm c.name = some ColumnType.dirty_float then
    ⟨c.name, c.values.map coerceVal⟩
  else c

/-- Re-classification applied with coercion: `dirty_float` becomes
`continuous`. -/
def coerceTy (ty : ColumnType) : ColumnType :=
  if ty = ColumnType.dirty_float then ColumnType.continuous else ty

/-- Fraction of missing values in a column. -/
def missFrac (vs : List Value) : ℚ :=
  mkRat ((vs.filter Value.isMissing).length : ℤ) vs.length

/-- Whether the missing-fraction rule fires for a type-map entry: the column
is not already useless and its missing-fraction exceeds the cutoff. -/
def missHit (cfg : Config) (cols : List Column) (e : String × ColumnType) : Bool :=
  !(e.2 == ColumnType.useless) &&
    (match findColL cols e.1 with
     | some c => decide (cfg.missCutoff < missFrac c.values)
     | none => false)

/-- Missing-fraction rule on one entry's type. -/
def missTy (cfg : Config) (cols : List Column) (n : String) (ty : ColumnType) : ColumnType :=
  if missHit cfg cols (n, ty) then ColumnType.useless else ty

/-- Duplicate-flag rule on one entry's type. -/
def flagTy (fs : List String) (n : String) (ty : ColumnType) : ColumnType :=
  if n ∈ fs then ColumnType.useless else ty

/-- Modelled from the spec: scan the columns in order, keeping the content
of each retained column; a column whose current type is already `useless`
(or which has no type entry) is exempt; a column whose content equals that
of an earlier kept column is flagged as a duplicate. -/
def dupScan (m : TypeMap) : List Column → List (List Value) → List String
  | [], _ => []
  | c :: rest, kept =>
      match lookupTM m c.name with
      | none => dupScan m rest kept
      | some ty =>
          if ty = ColumnType.useless then dupScan m rest kept
          else if c.values ∈ kept then c.name :: dupScan m rest kept
          else dupScan m rest (c.values :: kept)

/-- Modelled from the spec: `CleaningPolicy.clean` — coercion of dirty-float
columns first, then the missing-fraction rule on the coerced table, then
duplicate detection (exempting columns already useless), with a report of
all actions taken. -/
def clean (cfg : Config) (t : Table) (tm : TypeMap) : CleanResult :=
  let cols1 := t.cols.map (coerceCol tm)
  let m1 := tm.map (fun e => (e.1, coerceTy e.2))
  let m2 := m1.map (fun e => (e.1, missTy cfg cols1 e.1 e.2))
  let flags := dupScan m2 cols1 []
  let m3 := m2.map (fun e => (e.1, flagTy flags e.1 e.2))
  let report :=
    (tm.filter (fun e => e.2 == ColumnType.dirty_float)).map (fun e => CleanAction.coerced e.1)
      ++ (m1.filter (missHit cfg cols1)).map (fun e => CleanAction.flaggedMissing e.1)
      ++ flags.map CleanAction.flaggedDup
  ⟨⟨cols1⟩, m3, report⟩

/-! ### Lemmas about the cleaning passes -/

lemma lookupTM_mapSnd (f : String → ColumnType → ColumnType) :
    ∀ (m : TypeMap) (n : String),
      lookupTM (m.map fun e => (e.1, f e.1 e.2)) n = (lookupTM m n).map (f n) := by
  intro m n
  induction m with
  | nil => rfl
  | cons e rest ih =>
      obtain ⟨k, v⟩ := e
      simp only [List.map_cons, lookupTM]
      by_cases h : k = n
      · subst h
        simp
      · simp [h, ih]

lemma findColL_map (f : Column → Column) (hf : ∀ c, (f c).name = c.name) :
    ∀ (cols : List Column) (n : String),
      findColL (cols.map f) n = (findColL cols n).map f := by
  intro cols n
  induction cols with
  | nil => rfl
  | cons c rest ih =>
      simp only [List.map_cons, findColL, hf c]
      by_cases h : c.name = n
      · simp [h]
      · simp [h, ih]

lemma findColL_mem : ∀ (cols : List Column) (n : String) (c : Column),
    findColL cols n = some c → c ∈ cols := by
  intro cols n c h
  induction cols with
  | nil => simp [findColL] at h
  | cons d rest ih =>
      simp only [findColL] at h
      by_cases hd : d.name = n
      · rw [if_pos hd] at h
        cases h
        exact List.mem_cons_self _ _
      · rw [if_neg hd] at h
        exact List.mem_cons_of_mem d (ih h)

lemma coerceCol_name (tm : TypeMap) (c : Column) : (coerceCol tm c).name = c.name := by
  unfold coerceCol
  split <;> rfl

lemma coerceTy_ne_dirty (ty : ColumnType) : coerceTy ty ≠ ColumnType.dirty_float := by
  unfold coerceTy
  split <;> simp_all

lemma missTy_cases (cfg : Config) (cols : List Column) (n : String) (ty : ColumnType) :
    missTy cfg cols n ty = ty ∨ missTy cfg cols n ty = ColumnType.useless := by
  unfold missTy
  split <;> simp

lemma flagTy_cases (fs : List String) (n : String) (ty : ColumnType) :
    flagTy fs n ty = ty ∨ flagTy fs n ty = ColumnType.useless := by
  unfold flagTy
  split <;> simp

lemma mem_dupScan_names (m : TypeMap) :
    ∀ (cols : List Column) (kept : List (List Value)) (n : String),
      n ∈ dupScan m cols kept → n ∈ cols.map Column.name := by
  intro cols
  induction cols with
  | nil => intro kept n h; simp [dupScan] at h
  | cons c rest ih =>
      intro kept n h
      simp only [dupScan] at h
      simp only [List.map_cons, List.mem_cons]
      split at h
      · exact Or.inr (ih kept n h)
      · rename_i ty heq
        by_cases hu : ty = ColumnType.useless
        · rw [if_pos hu] at h
          exact Or.inr (ih kept n h)
        · rw [if_neg hu] at h
          by_cases hk : c.values ∈ kept
          · rw [if_pos hk] at h
            rcases List.mem_cons.mp h with h | h
            · exact Or.inl h
            · exact Or.inr (ih kept n h)
          · rw [if_neg hk] at h
            exact Or.inr (ih _ n h)

lemma countP_one_unique {α : Type} (p : α → Bool) :
    ∀ (l : List α) (a b : α), l.countP p = 1 → a ∈ l → b ∈ l →
      p a = true → p b = true → a = b := by
  intro l
  induction l with
  | nil => intro a b _ ha; simp at ha
  | cons x rest ih =>
      intro a b hcount ha hb hpa hpb
      by_cases hx : p x = true
      · have hrest : rest.countP p = 0 := by
          rw [List.countP_cons, if_pos hx] at hcount
          omega
        have hmem : ∀ y ∈ rest, p y = true → False := by
          intro y hy hpy
          exact (List.countP_eq_zero.mp hrest y hy) hpy
        have ha' : a = x := by
          rcases List.mem_cons.mp ha with h | h
          · exact h
          · exact absurd hpa (by intro hc; exact hmem a h hc)
        have hb' : b = x := by
          rcases List.mem_cons.mp hb with h | h
          · exact h
          · exact absurd hpb (by intro hc; exact hmem b h hc)
        rw [ha', hb']
      · have hcount' : rest.countP p = 1 := by
          rw [List.countP_cons, if_neg hx] at hcount
          omega
        have ha' : a ∈ rest := by
          rcases List.mem_cons.mp ha with h | h
          · subst h; exact absurd hpa (by simp [hx])
          · exact h
        have hb' : b ∈ rest := by
          rcases List.mem_cons.mp hb with h | h
          · subst h; exact absurd hpb (by simp [hx])
          · exact h
        exact ih a b hcount' ha' hb' hpa hpb

lemma dupScan_no_flag (m : TypeMap) (n : String) (V : List Value) :
    ∀ (cols : List Column) (kept : List (List Value)),
      cols.countP (fun d => d.name == n) ≤ 1 →
      (∀ d ∈ cols, d.name = n → d.values = V) →
      (∀ e ∈ cols, e.values = V → e.name = n) →
      V ∉ kept →
      n ∉ dupScan m cols kept := by
  intro cols
  induction cols with
  | nil => intro kept _ _ _ _ h; simp [dupScan] at h
  | cons c rest ih =>
      intro kept hcount h1 h2 hV h
      simp only [dupScan] at h
      have hcount' : rest.countP (fun d => d.name == n) ≤ 1 := by
        rw [List.countP_cons] at hcount
        split at hcount <;> omega
      have h1' : ∀ d ∈ rest, d.name = n → d.values = V :=
        fun d hd => h1 d (List.mem_cons_of_mem c hd)
      have h2' : ∀ e ∈ rest, e.values = V → e.name = n :=
        fun e he => h2 e (List.mem_cons_of_mem c he)
      split at h
      · exact ih kept hcount' h1' h2' hV h
      · rename_i ty heq
        by_cases hu : ty = ColumnType.useless
        · rw [if_pos hu] at h
          exact ih kept hcount' h1' h2' hV h
        · rw [if_neg hu] at h
          by_cases hk : c.values ∈ kept
          · rw [if_pos hk] at h
            rcases List.mem_cons.mp h with hcn | h
            · have : c.values = V := h1 c (List.mem_cons_self c rest) hcn.symm
              rw [this] at hk
              exact hV hk
            · exact ih kept hcount' h1' h2' hV h
          · rw [if_neg hk] at h
            by_cases hcV : c.values = V
            · have hcn : c.name = n := h2 c (List.mem_cons_self c rest) hcV
              have hrest0 : rest.countP (fun d => d.name == n) = 0 := by
                have hb : (c.name == n) = true := beq_iff_eq.mpr hcn
                rw [List.countP_cons, if_pos hb] at hcount
                omega
              have hnames : n ∉ rest.map Column.name := by
                intro hmem
                rcases List.mem_map.mp hmem with ⟨d, hd, hdn⟩
                have := List.countP_eq_zero.mp hrest0 d hd
                simp [hdn] at this
              exact hnames (mem_dupScan_names m rest _ n h)
            · exact ih _ hcount' h1' h2' (by
                intro hmem
                rcases List.mem_cons.mp hmem with hc | hc
                · exact hcV hc.symm
                · exact hV hc) h

/-- The cleaned column list. -/
def cleanCols (tm : TypeMap) (t : Table) : List Column :=
  t.cols.map (coerceCol tm)

/-- The type map after coercion and the missing-fraction rule. -/
def cleanM2 (cfg : Config) (t : Table) (tm : TypeMap) : TypeMap :=
  tm.map (fun e => (e.1, missTy cfg (cleanCols tm t) e.1 (coerceTy e.2)))

/-- The duplicate flags raised by `clean`. -/
def cleanFlags (cfg : Config) (t : Table) (tm : TypeMap) : List String :=
  dupScan (cleanM2 cfg t tm) (cleanCols tm t) []

lemma clean_table (cfg : Config) (t : Table) (tm : TypeMap) :
    (clean cfg t tm).table = ⟨cleanCols tm t⟩ := rfl

lemma clean_typeMap (cfg : Config) (t : Table) (tm : TypeMap) :
    (clean cfg t tm).typeMap =
      tm.map (fun e =>
        (e.1, flagTy (cleanFlags cfg t tm) e.1
          (missTy cfg (cleanCols tm t) e.1 (coerceTy e.2)))) := by
  simp only [clean, cleanFlags, cleanM2, cleanCols, List.map_map]
  rfl

lemma lookupTM_clean (cfg : Config) (t : Table) (tm : TypeMap) (n : String) :
    lookupTM (clean cfg t tm).typeMap n =
      (lookupTM tm n).map
        (fun ty => flagTy (cleanFlags cfg t tm) n (missTy cfg (cleanCols tm t) n (coerceTy ty))) := by
  rw [clean_typeMap]
  exact lookupTM_mapSnd
    (fun k ty => flagTy (cleanFlags cfg t tm) k (missTy cfg (cleanCols tm t) k (coerceTy ty)))
    tm n

def tC5 : Table :=
  ⟨[⟨"a", [.str "1", .str "2"]⟩, ⟨"b", [.str "1", .str "2"]⟩]⟩

def tmC5 : TypeMap := [("a", .dirty_float), ("b", .dirty_float)]

/-- Counterexample to C5 as stated: column `b` is typed `dirty_float`, yet
after `clean` it is re-assigned `useless` (it is an exact duplicate of the
earlier column `a`), not `continuous`. -/
theorem dabl_C5_cex :
    lookupTM tmC5 "b" = some ColumnType.dirty_float ∧
    lookupTM (clean defaultConfig tC5 tmC5).typeMap "b" = some ColumnType.useless := by
  constructor
  · decide
  · decide

/-- C5 (amended): `clean` coerces the values of every `dirty_float` column
(parseable entries preserved as numbers, unparseable ones becoming the
missing-marker) and re-assigns the column `continuous` — unless the
subsequent cleaning rules re-flag it `useless`; `continuous` is guaranteed
when the coerced column stays under the missing-fraction cutoff and
duplicates no other column. -/
theorem dabl_C5 (cfg : Config) (t : Table) (tm : TypeMap) :
    (∀ i (hi : i < t.cols.length),
      lookupTM tm (t.cols.get ⟨i, hi⟩).name = some ColumnType.dirty_float →
      (clean cfg t tm).table.cols.get? i =
        some ⟨(t.cols.get ⟨i, hi⟩).name, (t.cols.get ⟨i, hi⟩).values.map coerceVal⟩) ∧
    (∀ n, lookupTM tm n = some ColumnType.dirty_float →
      lookupTM (clean cfg t tm).typeMap n = some ColumnType.continuous ∨
      lookupTM (clean cfg t tm).typeMap n = some ColumnType.useless) ∧
    (∀ n c, findColL t.cols n = some c →
      lookupTM tm n = some ColumnType.dirty_float →
      t.cols.countP (fun d => d.name == n) = 1 →
      ¬ cfg.missCutoff < missFrac (c.values.map coerceVal) →
      (∀ d ∈ t.cols, (coerceCol tm d).values = c.values.map coerceVal → d.name = n) →
      lookupTM (clean cfg t tm).typeMap n = some ColumnType.continuous) := by
  refine ⟨?_, ?_, ?_⟩
  · intro i hi hdirty
    rw [clean_table]
    show (t.cols.map (coerceCol tm)).get? i = _
    rw [List.get?_eq_getElem?, List.getElem?_map, List.getElem?_eq_getElem hi]
    simp only [Option.map_some']
    unfold coerceCol
    rw [if_pos (show lookupTM tm (t.cols[i]).name = some ColumnType.dirty_float from hdirty)]
    rfl
  · intro n hdirty
    rw [lookupTM_clean, hdirty]
    simp only [Option.map_some']
    have hco : coerceTy ColumnType.dirty_float = ColumnType.continuous := rfl
    rw [hco]
    rcases missTy_cases cfg (cleanCols tm t) n ColumnType.continuous with hm | hm <;>
      rw [hm]
    · rcases flagTy_cases (cleanFlags cfg t tm) n ColumnType.continuous with hf | hf <;>
        rw [hf]
      · exact Or.inl rfl
      · exact Or.inr rfl
    · rcases flagTy_cases (cleanFlags cfg t tm) n ColumnType.useless with hf | hf <;>
        rw [hf]
      · exact Or.inr rfl
      · exact Or.inr rfl
  · intro n c hfind hdirty hcount hmiss hdup
    have hcn : c.name = n := findColL_name t.cols n c hfind
    have hcmem : c ∈ t.cols := findColL_mem t.cols n c hfind
    have hcc : coerceCol tm c = ⟨c.name, c.values.map coerceVal⟩ := by
      unfold coerceCol
      rw [if_pos (by rw [hcn]; exact hdirty)]
    rw [lookupTM_clean, hdirty]
    simp only [Option.map_some']
    have hco : coerceTy ColumnType.dirty_float = ColumnType.continuous := rfl
    rw [hco]
    have hfind1 : findColL (cleanCols tm t) n = some (coerceCol tm c) := by
      unfold cleanCols
      rw [findColL_map (coerceCol tm) (coerceCol_name tm), hfind]
      rfl
    have hmt : missTy cfg (cleanCols tm t) n ColumnType.continuous = ColumnType.continuous := by
      unfold missTy
      rw [if_neg ?_]
      unfold missHit
      rw [hfind1, hcc]
      simp [hmiss]
    rw [hmt]
    have hnoflag : n ∉ cleanFlags cfg t tm := by
      unfold cleanFlags
      refine dupScan_no_flag (cleanM2 cfg t tm) n (c.values.map coerceVal)
        (cleanCols tm t) [] ?_ ?_ ?_ (by simp)
      · unfold cleanCols
        rw [List.countP_map]
        have : t.cols.countP ((fun d => d.name == n) ∘ coerceCol tm) =
            t.cols.countP (fun d => d.name == n) := by
          refine List.countP_congr ?_
          intro d _
          simp [Function.comp, coerceCol_name]
        rw [this, hcount]
      · intro d hd hdn
        rcases List.mem_map.mp hd with ⟨d0, hd0, rfl⟩
        have hd0n : d0.name = n := by
          rw [← coerceCol_name tm d0]
          exact hdn
        have : d0 = c := by
          refine countP_one_unique (fun d => d.name == n) t.cols d0 c hcount hd0 hcmem ?_ ?_
          · exact beq_iff_eq.mpr hd0n
          · exact beq_iff_eq.mpr hcn
        rw [this, hcc]
      · intro e he hev
        rcases List.mem_map.mp he with ⟨e0, he0, rfl⟩
        rw [coerceCol_name]
        exact hdup e0 he0 hev
    unfold flagTy
    rw [if_neg hnoflag]

def tW5 : Table := ⟨[⟨"a", [.str "1", .str "x"]⟩]⟩

def tmW5 : TypeMap := [("a", .dirty_float)]

/-- Witness for the amended C5 at a concrete dirty-float column. -/
theorem dabl_C5_w :
    (clean defaultConfig tW5 tmW5).table.cols.get? 0 =
      some ⟨"a", [Value.str "1", Value.str "x"].map coerceVal⟩ ∧
    (lookupTM (clean defaultConfig tW5 tmW5).typeMap "a" = some ColumnType.continuous ∨
     lookupTM (clean defaultConfig tW5 tmW5).typeMap "a" = some ColumnType.useless) ∧
    lookupTM (clean defaultConfig tW5 tmW5).typeMap "a" = some ColumnType.continuous :=
  ⟨(dabl_C5 defaultConfig tW5 tmW5).1 0 (by decide) (by decide),
   (dabl_C5 defaultConfig tW5 tmW5).2.1 "a" (by decide),
   (dabl_C5 defaultConfig tW5 tmW5).2.2 "a" ⟨"a", [Value.str "1", Value.str "x"]⟩
     (by decide) (by decide) (by decide) (by decide)
     (by
       intro d hd hv
       simp only [tW5, List.mem_cons, List.not_mem_nil, or_false] at hd
       subst hd
       rfl)⟩

/-! ### Idempotence of clean -/

lemma dupScan_cons_none (m : TypeMap) (c : Column) (rest : List Column)
    (kept : List (List Value)) (h : lookupTM m c.name = none) :
    dupScan m (c :: rest) kept = dupScan m rest kept := by
  conv_lhs => unfold dupScan; rw [h]

lemma dupScan_cons_useless (m : TypeMap) (c : Column) (rest : List Column)
    (kept : List (List Value)) (ty : ColumnType)
    (h : lookupTM m c.name = some ty) (hu : ty = ColumnType.useless) :
    dupScan m (c :: rest) kept = dupScan m rest kept := by
  conv_lhs => unfold dupScan; rw [h]
  exact if_pos hu

lemma dupScan_cons_dup (m : TypeMap) (c : Column) (rest : List Column)
    (kept : List (List Value)) (ty : ColumnType)
    (h : lookupTM m c.name = some ty) (hu : ty ≠ ColumnType.useless)
    (hk : c.values ∈ kept) :
    dupScan m (c :: rest) kept = c.name :: dupScan m rest kept := by
  conv_lhs => unfold dupScan; rw [h]
  exact (if_neg hu).trans (if_pos hk)

lemma dupScan_cons_keep (m : TypeMap) (c : Column) (rest : List Column)
    (kept : List (List Value)) (ty : ColumnType)
    (h : lookupTM m c.name = some ty) (hu : ty ≠ ColumnType.useless)
    (hk : c.values ∉ kept) :
    dupScan m (c :: rest) kept = dupScan m rest (c.values :: kept) := by
  conv_lhs => unfold dupScan; rw [h]
  exact (if_neg hu).trans (if_neg hk)

lemma coerceTy_of_ne (ty : ColumnType) (h : ty ≠ ColumnType.dirty_float) :
    coerceTy ty = ty := by
  unfold coerceTy
  rw [if_neg h]

lemma flagTy_nil (n : String) (ty : ColumnType) : flagTy [] n ty = ty := by
  unfold flagTy
  simp

lemma cleanTy_ne_dirty (cfg : Config) (cols : List Column) (fs : List String)
    (n : String) (ty : ColumnType) :
    flagTy fs n (missTy cfg cols n (coerceTy ty)) ≠ ColumnType.dirty_float := by
  rcases flagTy_cases fs n (missTy cfg cols n (coerceTy ty)) with h | h <;> rw [h]
  · rcases missTy_cases cfg cols n (coerceTy ty) with h2 | h2 <;> rw [h2]
    · exact coerceTy_ne_dirty ty
    · simp
  · simp

lemma missHit_flagged_false (cfg : Config) (cols : List Column) (fs : List String)
    (n : String) (x : ColumnType) :
    missHit cfg cols (n, flagTy fs n (missTy cfg cols n x)) = false := by
  by_cases hf : n ∈ fs
  · unfold flagTy
    rw [if_pos hf]
    simp [missHit]
  · unfold flagTy
    rw [if_neg hf]
    unfold missTy
    by_cases hh : missHit cfg cols (n, x) = true
    · rw [if_pos hh]
      simp [missHit]
    · rw [if_neg hh]
      exact Bool.eq_false_iff.mpr hh

lemma dupScan_step_mono (mA : TypeMap) (c : Column) (rest : List Column)
    (kept₁ : List (List Value)) :
    ∃ kept₁', (∀ v ∈ kept₁, v ∈ kept₁') ∧
      (∀ x, x ∈ dupScan mA rest kept₁' → x ∈ dupScan mA (c :: rest) kept₁) := by
  cases hA : lookupTM mA c.name with
  | none =>
      exact ⟨kept₁, fun v hv => hv, fun x hx => by
        rw [dupScan_cons_none mA c rest kept₁ hA]
        exact hx⟩
  | some tyA =>
      by_cases huA : tyA = ColumnType.useless
      · exact ⟨kept₁, fun v hv => hv, fun x hx => by
          rw [dupScan_cons_useless mA c rest kept₁ tyA hA huA]
          exact hx⟩
      · by_cases hkA : c.values ∈ kept₁
        · exact ⟨kept₁, fun v hv => hv, fun x hx => by
            rw [dupScan_cons_dup mA c rest kept₁ tyA hA huA hkA]
            exact List.mem_cons_of_mem _ hx⟩
        · exact ⟨c.values :: kept₁, fun v hv => List.mem_cons_of_mem _ hv, fun x hx => by
            rw [dupScan_cons_keep mA c rest kept₁ tyA hA huA hkA]
            exact hx⟩

lemma dupScan_nil_of (mA mB : TypeMap) :
    ∀ (cols : List Column) (kept₁ kept₂ : List (List Value)),
      (∀ v ∈ kept₂, v ∈ kept₁) →
      (∀ c ∈ cols, ∀ ty, lookupTM mB c.name = some ty → ty ≠ ColumnType.useless →
        ∃ ty', lookupTM mA c.name = some ty' ∧ ty' ≠ ColumnType.useless ∧
          c.name ∉ dupScan mA cols kept₁) →
      dupScan mB cols kept₂ = [] := by
  intro cols
  induction cols with
  | nil => intro kept₁ kept₂ _ _; rfl
  | cons c rest ih =>
      intro kept₁ kept₂ hsub H
      have skipStep : dupScan mB rest kept₂ = [] → dupScan mB (c :: rest) kept₂ =
          dupScan mB rest kept₂ → dupScan mB (c :: rest) kept₂ = [] := by
        intro h1 h2
        rw [h2, h1]
      have hrest : ∀ kept₂' : List (List Value), (∀ v ∈ kept₂', v ∈ kept₂) →
          dupScan mB rest kept₂' = [] := by
        intro kept₂' hsub2
        obtain ⟨kept₁', hmono, hflag⟩ := dupScan_step_mono mA c rest kept₁
        refine ih kept₁' kept₂' (fun v hv => hmono v (hsub v (hsub2 v hv))) ?_
        intro c' hc' ty hty hne
        obtain ⟨ty', h1, h2, h3⟩ := H c' (List.mem_cons_of_mem c hc') ty hty hne
        exact ⟨ty', h1, h2, fun hmem => h3 (hflag _ hmem)⟩
      cases hB : lookupTM mB c.name with
      | none =>
          rw [dupScan_cons_none mB c rest kept₂ hB]
          exact hrest kept₂ (fun v hv => hv)
      | some tyB =>
          by_cases huB : tyB = ColumnType.useless
          · rw [dupScan_cons_useless mB c rest kept₂ tyB hB huB]
            exact hrest kept₂ (fun v hv => hv)
          · obtain ⟨tyA, hA, huA, hnotin⟩ := H c (List.mem_cons_self c rest) tyB hB huB
            by_cases hkA : c.values ∈ kept₁
            · exfalso
              rw [dupScan_cons_dup mA c rest kept₁ tyA hA huA hkA] at hnotin
              exact hnotin (List.mem_cons_self _ _)
            · have hkB : c.values ∉ kept₂ := fun hmem => hkA (hsub _ hmem)
              rw [dupScan_cons_keep mB c rest kept₂ tyB hB huB hkB]
              refine ih (c.values :: kept₁) (c.values :: kept₂) ?_ ?_
              · intro v hv
                rcases List.mem_cons.mp hv with h | h
                · exact h ▸ List.mem_cons_self _ _
                · exact List.mem_cons_of_mem _ (hsub v h)
              · intro c' hc' ty hty hne
                obtain ⟨ty', h1, h2, h3⟩ := H c' (List.mem_cons_of_mem c hc') ty hty hne
                rw [dupScan_cons_keep mA c rest kept₁ tyA hA huA hkA] at h3
                exact ⟨ty', h1, h2, h3⟩

lemma lookupTM_cleanM2 (cfg : Config) (t : Table) (tm : TypeMap) (n : String) :
    lookupTM (cleanM2 cfg t tm) n =
      (lookupTM tm n).map (fun ty => missTy cfg (cleanCols tm t) n (coerceTy ty)) := by
  unfold cleanM2
  exact lookupTM_mapSnd (fun k ty => missTy cfg (cleanCols tm t) k (coerceTy ty)) tm n

lemma lookupTM_clean_ne_dirty (cfg : Config) (t : Table) (tm : TypeMap) (n : String) :
    lookupTM (clean cfg t tm).typeMap n ≠ some ColumnType.dirty_float := by
  rw [lookupTM_clean]
  cases h : lookupTM tm n with
  | none => simp
  | some ty =>
      simp only [Option.map_some']
      intro hc
      injection hc with hc
      exact cleanTy_ne_dirty cfg (cleanCols tm t) (cleanFlags cfg t tm) n ty hc

lemma coerceCol_clean_id (cfg : Config) (t : Table) (tm : TypeMap) (c : Column) :
    coerceCol (clean cfg t tm).typeMap c = c := by
  unfold coerceCol
  rw [if_neg (lookupTM_clean_ne_dirty cfg t tm c.name)]

lemma missTy_of_hit_false (cfg : Config) (cols : List Column) (n : String)
    (ty : ColumnType) (h : missHit cfg cols (n, ty) = false) :
    missTy cfg cols n ty = ty := by
  unfold missTy
  rw [h]
  simp

lemma clean_entry_fix (cfg : Config) (t : Table) (tm : TypeMap) :
    ∀ e ∈ (clean cfg t tm).typeMap,
      e.2 ≠ ColumnType.dirty_float ∧
      missHit cfg (cleanCols tm t) (e.1, e.2) = false ∧
      missTy cfg (cleanCols tm t) e.1 e.2 = e.2 := by
  intro e he
  rw [clean_typeMap] at he
  rcases List.mem_map.mp he with ⟨e0, _, rfl⟩
  refine ⟨cleanTy_ne_dirty cfg (cleanCols tm t) (cleanFlags cfg t tm) e0.1 e0.2, ?_, ?_⟩
  · exact missHit_flagged_false cfg (cleanCols tm t) (cleanFlags cfg t tm) e0.1 (coerceTy e0.2)
  · exact missTy_of_hit_false cfg (cleanCols tm t) e0.1 _
      (missHit_flagged_false cfg (cleanCols tm t) (cleanFlags cfg t tm) e0.1 (coerceTy e0.2))

lemma clean_report (cfg : Config) (t : Table) (tm : TypeMap) :
    (clean cfg t tm).report =
      (tm.filter (fun e => e.2 == ColumnType.dirty_float)).map (fun e => CleanAction.coerced e.1)
        ++ ((tm.map (fun e => (e.1, coerceTy e.2))).filter
              (missHit cfg (cleanCols tm t))).map (fun e => CleanAction.flaggedMissing e.1)
        ++ (cleanFlags cfg t tm).map CleanAction.flaggedDup := by
  simp only [clean, cleanFlags, cleanM2, cleanCols, List.map_map]
  rfl

lemma cleanCols_clean_eq (cfg : Config) (t : Table) (tm : TypeMap) :
    cleanCols (clean cfg t tm).typeMap (clean cfg t tm).table = cleanCols tm t := by
  show (clean cfg t tm).table.cols.map (coerceCol (clean cfg t tm).typeMap) = cleanCols tm t
  refine (List.map_congr_left ?_).trans (List.map_id _)
  intro c _
  exact coerceCol_clean_id cfg t tm c

lemma cleanM2_clean_eq (cfg : Config) (t : Table) (tm : TypeMap) :
    cleanM2 cfg (clean cfg t tm).table (clean cfg t tm).typeMap = (clean cfg t tm).typeMap := by
  unfold cleanM2
  rw [cleanCols_clean_eq]
  refine (List.map_congr_left ?_).trans (List.map_id _)
  intro e he
  obtain ⟨hnd, _, hfix⟩ := clean_entry_fix cfg t tm e he
  rw [coerceTy_of_ne e.2 hnd, hfix]
  rfl

lemma cleanFlags_clean_nil (cfg : Config) (t : Table) (tm : TypeMap) :
    cleanFlags cfg (clean cfg t tm).table (clean cfg t tm).typeMap = [] := by
  unfold cleanFlags
  rw [cleanM2_clean_eq, cleanCols_clean_eq]
  refine dupScan_nil_of (cleanM2 cfg t tm) (clean cfg t tm).typeMap (cleanCols tm t) [] [] ?_ ?_
  · intro v hv
    exact hv
  · intro c _ ty hty hne
    rw [lookupTM_clean] at hty
    cases h0 : lookupTM tm c.name with
    | none =>
        rw [h0] at hty
        simp at hty
    | some ty0 =>
        rw [h0] at hty
        simp only [Option.map_some'] at hty
        injection hty with hty
        by_cases hmem : c.name ∈ cleanFlags cfg t tm
        · exfalso
          apply hne
          rw [← hty]
          unfold flagTy
          rw [if_pos hmem]
        · refine ⟨ty, ?_, hne, hmem⟩
          rw [lookupTM_cleanM2, h0]
          simp only [Option.map_some']
          rw [← hty]
          unfold flagTy
          rw [if_neg hmem]

/-- C6: `clean` is idempotent — applying it to the table and type map it
produced changes neither, and the second run reports no actions at all. -/
theorem dabl_C6 (cfg : Config) (t : Table) (tm : TypeMap) :
    clean cfg (clean cfg t tm).table (clean cfg t tm).typeMap =
      ⟨(clean cfg t tm).table, (clean cfg t tm).typeMap, []⟩ := by
  have htab : (clean cfg (clean cfg t tm).table (clean cfg t tm).typeMap).table =
      (clean cfg t tm).table := by
    rw [clean_table]
    have := cleanCols_clean_eq cfg t tm
    show Table.mk (cleanCols (clean cfg t tm).typeMap (clean cfg t tm).table) = _
    rw [this]
    rfl
  have hmap : (clean cfg (clean cfg t tm).table (clean cfg t tm).typeMap).typeMap =
      (clean cfg t tm).typeMap := by
    rw [clean_typeMap, cleanFlags_clean_nil, cleanCols_clean_eq]
    refine (List.map_congr_left ?_).trans (List.map_id _)
    intro e he
    obtain ⟨hnd, _, hfix⟩ := clean_entry_fix cfg t tm e he
    rw [flagTy_nil, coerceTy_of_ne e.2 hnd, hfix]
    rfl
  have hrep : (clean cfg (clean cfg t tm).table (clean cfg t tm).typeMap).report = [] := by
    rw [clean_report, cleanFlags_clean_nil, cleanCols_clean_eq]
    have h1 : (clean cfg t tm).typeMap.filter (fun e => e.2 == ColumnType.dirty_float) = [] := by
      refine List.filter_eq_nil_iff.mpr ?_
      intro e he
      obtain ⟨hnd, _, _⟩ := clean_entry_fix cfg t tm e he
      simp [hnd]
    have h2 : ((clean cfg t tm).typeMap.map (fun e => (e.1, coerceTy e.2))) =
        (clean cfg t tm).typeMap := by
      refine (List.map_congr_left ?_).trans (List.map_id _)
      intro e he
      obtain ⟨hnd, _, _⟩ := clean_entry_fix cfg t tm e he
      rw [coerceTy_of_ne e.2 hnd]
      rfl
    have h3 : (clean cfg t tm).typeMap.filter (missHit cfg (cleanCols tm t)) = [] := by
      refine List.filter_eq_nil_iff.mpr ?_
      intro e he
      obtain ⟨_, hmh, _⟩ := clean_entry_fix cfg t tm e he
      simp only [Bool.not_eq_true]
      exact hmh
    rw [h1, h2, h3]
    simp
  have heta : clean cfg (clean cfg t tm).table (clean cfg t tm).typeMap =
      ⟨(clean cfg (clean cfg t tm).table (clean cfg t tm).typeMap).table,
       (clean cfg (clean cfg t tm).table (clean cfg t tm).typeMap).typeMap,
       (clean cfg (clean cfg t tm).table (clean cfg t tm).typeMap).report⟩ := rfl
  rw [heta, htab, hmap, hrep]

/-! ### PipelineSynthesizer -/

/-- Modelled from the spec: the pipeline is a composition of per-type-group
branches whose combiner concatenates branch outputs — continuous branch
first, then categorical, then high-cardinality. -/
structure Pipeline where
  contCols : List String
  catCols : List String
  highCols : List String
deriving DecidableEq

/-- Output column order of the combined feature matrix. -/
def Pipeline.outputCols (p : Pipeline) : List String :=
  p.contCols ++ p.catCols ++ p.highCols

/-- One step of grouping a column into its feature branch; columns typed
`free_text`, `date`, `useless`, `target` (or untyped) are excluded. -/
def buildStep (tm : TypeMap) (acc : List String × List String × List String)
    (c : Column) : List String × List String × List String :=
  let oty := lookupTM tm c.name
  if oty == some ColumnType.continuous then (acc.1 ++ [c.name], acc.2.1, acc.2.2)
  else if oty == some ColumnType.categorical || oty == some ColumnType.low_card_int then
    (acc.1, acc.2.1 ++ [c.name], acc.2.2)
  else if oty == some ColumnType.high_card_categorical then
    (acc.1, acc.2.1, acc.2.2 ++ [c.name])
  else acc

/-- Names of the columns of the continuous branch, in table order. -/
def contColsOf (t : Table) (tm : TypeMap) : List String :=
  (t.cols.filter (fun d => lookupTM tm d.name == some ColumnType.continuous)).map Column.name

/-- Names of the columns of the categorical branch, in table order. -/
def catColsOf (t : Table) (tm : TypeMap) : List String :=
  (t.cols.filter (fun d =>
    lookupTM tm d.name == some ColumnType.categorical ||
    lookupTM tm d.name == some ColumnType.low_card_int)).map Column.name

/-- Names of the columns of the high-cardinality branch, in table order. -/
def highColsOf (t : Table) (tm : TypeMap) : List String :=
  (t.cols.filter (fun d =>
    lookupTM tm d.name == some ColumnType.high_card_categorical)).map Column.name

/-- Modelled from the spec: `PipelineSynthesizer.build` groups columns into
branches and fails with a configuration error when no usable feature column
exists. -/
def build (t : Table) (tm : TypeMap) : Except String Pipeline :=
  let acc := t.cols.foldl (buildStep tm) ([], [], [])
  if acc.1 = [] ∧ acc.2.1 = [] ∧ acc.2.2 = [] then
    Except.error "ConfigurationError: no usable feature columns"
  else Except.ok ⟨acc.1, acc.2.1, acc.2.2⟩

lemma buildFold_eq (tm : TypeMap) :
    ∀ (cols : List Column) (a b c : List String),
      cols.foldl (buildStep tm) (a, b, c) =
        (a ++ (cols.filter (fun d =>
            lookupTM tm d.name == some ColumnType.continuous)).map Column.name,
         b ++ (cols.filter (fun d =>
            lookupTM tm d.name == some ColumnType.categorical ||
            lookupTM tm d.name == some ColumnType.low_card_int)).map Column.name,
         c ++ (cols.filter (fun d =>
            lookupTM tm d.name == some ColumnType.high_card_categorical)).map Column.name) := by
  intro cols
  induction cols with
  | nil => intro a b c; simp
  | cons d rest ih =>
      intro a b c
      simp only [List.foldl_cons, List.filter_cons]
      by_cases h1 : (lookupTM tm d.name == some ColumnType.continuous) = true
      · have h2 : (lookupTM tm d.name == some ColumnType.categorical ||
            lookupTM tm d.name == some ColumnType.low_card_int) = false := by
          rw [beq_iff_eq.mp h1]
          rfl
        have h3 : (lookupTM tm d.name == some ColumnType.high_card_categorical) = false := by
          rw [beq_iff_eq.mp h1]
          rfl
        simp only [buildStep, h1, h2, h3, if_true, if_false, Bool.false_eq_true]
        rw [ih]
        simp [List.append_assoc]
      · by_cases h2 : (lookupTM tm d.name == some ColumnType.categorical ||
            lookupTM tm d.name == some ColumnType.low_card_int) = true
        · have h3 : (lookupTM tm d.name == some ColumnType.high_card_categorical) = false := by
            rcases Bool.or_eq_true_iff.mp h2 with h | h
            · rw [beq_iff_eq.mp h]; rfl
            · rw [beq_iff_eq.mp h]; rfl
          simp only [buildStep, h1, h2, h3, if_true, if_false, Bool.false_eq_true]
          rw [ih]
          simp [List.append_assoc]
        · by_cases h3 : (lookupTM tm d.name == some ColumnType.high_card_categorical) = true
          · simp only [buildStep, h1, h2, h3, if_true, if_false, Bool.false_eq_true]
            rw [ih]
            simp [List.append_assoc]
          · simp only [buildStep, h1, h2, h3, if_true, if_false, Bool.false_eq_true]
            rw [ih]

lemma build_acc (t : Table) (tm : TypeMap) :
    t.cols.foldl (buildStep tm) ([], [], []) =
      (contColsOf t tm, catColsOf t tm, highColsOf t tm) := by
  have := buildFold_eq tm t.cols [] [] []
  simpa [contColsOf, catColsOf, highColsOf] using this

lemma build_eq (t : Table) (tm : TypeMap) :
    build t tm =
      if contColsOf t tm = [] ∧ catColsOf t tm = [] ∧ highColsOf t tm = [] then
        Except.error "ConfigurationError: no usable feature columns"
      else Except.ok ⟨contColsOf t tm, catColsOf t tm, highColsOf t tm⟩ := by
  unfold build
  rw [build_acc]

/-- C7: `build` fails with a configuration error, returning no pipeline,
exactly when every column of a cleaned type map is excluded from the
feature pipeline, i.e. typed `free_text`, `date`, `useless` or `target`. -/
theorem dabl_C7 (t : Table) (tm : TypeMap)
    (hclean : ∀ c ∈ t.cols, ∃ ty, lookupTM tm c.name = some ty ∧
      ty ≠ ColumnType.dirty_float) :
    (∃ msg, build t tm = Except.error msg) ↔
      ∀ c ∈ t.cols,
        lookupTM tm c.name = some ColumnType.free_text ∨
        lookupTM tm c.name = some ColumnType.date ∨
        lookupTM tm c.name = some ColumnType.useless ∨
        lookupTM tm c.name = some ColumnType.target := by
  rw [build_eq]
  constructor
  · rintro ⟨msg, hmsg⟩
    by_cases hcond : contColsOf t tm = [] ∧ catColsOf t tm = [] ∧ highColsOf t tm = []
    · intro c hc
      obtain ⟨ty, hty, hnd⟩ := hclean c hc
      obtain ⟨hc1, hc2, hc3⟩ := hcond
      have hn1 : ¬ (lookupTM tm c.name == some ColumnType.continuous) = true := by
        intro hb
        have : c ∈ t.cols.filter (fun d =>
            lookupTM tm d.name == some ColumnType.continuous) :=
          List.mem_filter.mpr ⟨hc, hb⟩
        rw [show t.cols.filter (fun d =>
            lookupTM tm d.name == some ColumnType.continuous) = [] from by
          have := congrArg (List.length) hc1
          simp only [contColsOf, List.length_map] at this
          exact List.length_eq_zero.mp this] at this
        simp at this
      have hn2 : ¬ (lookupTM tm c.name == some ColumnType.categorical ||
          lookupTM tm c.name == some ColumnType.low_card_int) = true := by
        intro hb
        have : c ∈ t.cols.filter (fun d =>
            lookupTM tm d.name == some ColumnType.categorical ||
            lookupTM tm d.name == some ColumnType.low_card_int) :=
          List.mem_filter.mpr ⟨hc, hb⟩
        rw [show t.cols.filter (fun d =>
            lookupTM tm d.name == some ColumnType.categorical ||
            lookupTM tm d.name == some ColumnType.low_card_int) = [] from by
          have := congrArg (List.length) hc2
          simp only [catColsOf, List.length_map] at this
          exact List.length_eq_zero.mp this] at this
        simp at this
      have hn3 : ¬ (lookupTM tm c.name == some ColumnType.high_card_categorical) = true := by
        intro hb
        have : c ∈ t.cols.filter (fun d =>
            lookupTM tm d.name == some ColumnType.high_card_categorical) :=
          List.mem_filter.mpr ⟨hc, hb⟩
        rw [show t.cols.filter (fun d =>
            lookupTM tm d.name == some ColumnType.high_card_categorical) = [] from by
          have := congrArg (List.length) hc3
          simp only [highColsOf, List.length_map] at this
          exact List.length_eq_zero.mp this] at this
        simp at this
      rw [hty] at hn1 hn2 hn3
      rw [hty]
      cases ty with
      | continuous => exact (hn1 (by decide)).elim
      | dirty_float => exact absurd rfl hnd
      | categorical => exact (hn2 (by decide)).elim
      | low_card_int => exact (hn2 (by decide)).elim
      | high_card_categorical => exact (hn3 (by decide)).elim
      | free_text => exact Or.inl rfl
      | date => exact Or.inr (Or.inl rfl)
      | useless => exact Or.inr (Or.inr (Or.inl rfl))
      | target => exact Or.inr (Or.inr (Or.inr rfl))
    · rw [if_neg hcond] at hmsg
      cases hmsg
  · intro hall
    have hempty : ∀ (p : Column → Bool),
        (∀ c ∈ t.cols, p c = false) → t.cols.filter p = [] := by
      intro p hp
      refine List.filter_eq_nil_iff.mpr ?_
      intro c hc
      rw [hp c hc]
      simp
    have hc1 : contColsOf t tm = [] := by
      unfold contColsOf
      rw [hempty _ ?_]
      · rfl
      · intro c hc
        rcases hall c hc with h | h | h | h <;> rw [h] <;> rfl
    have hc2 : catColsOf t tm = [] := by
      unfold catColsOf
      rw [hempty _ ?_]
      · rfl
      · intro c hc
        rcases hall c hc with h | h | h | h <;> rw [h] <;> rfl
    have hc3 : highColsOf t tm = [] := by
      unfold highColsOf
      rw [hempty _ ?_]
      · rfl
      · intro c hc
        rcases hall c hc with h | h | h | h <;> rw [h] <;> rfl
    exact ⟨_, by rw [if_pos ⟨hc1, hc2, hc3⟩]⟩

def tW7 : Table := ⟨[⟨"u", [.num 1, .num 1]⟩]⟩

def tmW7 : TypeMap := [("u", .useless)]

/-- Witness for C7: a table whose single column is useless makes `build`
fail with a configuration error. -/
theorem dabl_C7_w : ∃ msg, build tW7 tmW7 = Except.error msg :=
  (dabl_C7 tW7 tmW7
    (by
      intro c hc
      simp only [tW7, List.mem_cons, List.not_mem_nil, or_false] at hc
      subst hc
      exact ⟨ColumnType.useless, rfl, by decide⟩)).mpr
    (by
      intro c hc
      simp only [tW7, List.mem_cons, List.not_mem_nil, or_false] at hc
      subst hc
      exact Or.inr (Or.inr (Or.inl rfl)))

/-- C8: `build` is deterministic and the output column order of the
pipeline it returns is the continuous branch first, then the categorical
branch, then the high-cardinality branch, each in table column order. -/
theorem dabl_C8 (t : Table) (tm : TypeMap) :
    (∀ p, build t tm = Except.ok p →
      p.outputCols = contColsOf t tm ++ catColsOf t tm ++ highColsOf t tm) ∧
    (∀ p q, build t tm = Except.ok p → build t tm = Except.ok q →
      p.outputCols = q.outputCols) := by
  constructor
  · intro p hp
    rw [build_eq] at hp
    by_cases hcond : contColsOf t tm = [] ∧ catColsOf t tm = [] ∧ highColsOf t tm = []
    · rw [if_pos hcond] at hp
      cases hp
    · rw [if_neg hcond] at hp
      injection hp with hp
      rw [← hp]
      rfl
  · intro p q hp hq
    rw [hp] at hq
    injection hq with hq
    rw [hq]

def tW8 : Table := ⟨[⟨"x", [.str "a"]⟩, ⟨"y", [.num 1]⟩]⟩

def tmW8 : TypeMap := [("x", .categorical), ("y", .continuous)]

/-- Witness for C8 at a concrete two-column table: the continuous column
comes first in the output order even though it is second in the table. -/
theorem dabl_C8_w :
    Pipeline.outputCols ⟨["y"], ["x"], []⟩ =
      contColsOf tW8 tmW8 ++ catColsOf tW8 tmW8 ++ highColsOf tW8 tmW8 ∧
    Pipeline.outputCols ⟨["y"], ["x"], []⟩ = Pipeline.outputCols ⟨["y"], ["x"], []⟩ :=
  ⟨(dabl_C8 tW8 tmW8).1 ⟨["y"], ["x"], []⟩ (by rfl),
   (dabl_C8 tW8 tmW8).2 ⟨["y"], ["x"], []⟩ ⟨["y"], ["x"], []⟩ (by rfl) (by rfl)⟩

/-! ### PlotDispatcher -/

/-- Modelled from the spec: the closed set of plot kinds chosen from the
(feature type, target type) pair. -/
inductive PlotKind where
  | histogram
  | bar
  | scatter
  | box
  | overlaidDensity
  | stackedBar
deriving DecidableEq

/-- Modelled from the spec: a PlotSpec names the column involved and the
chosen plot kind. -/
structure PlotSpec where
  column : String
  kind : PlotKind
deriving DecidableEq

/-- Modelled from the spec: a column is eligible for plotting when it is
not the target column and its type is a feature type; `free_text`, `date`
and `useless` columns are skipped. -/
def plotEligible (tm : TypeMap) (tgt : Option String) (c : Column) : Bool :=
  !(tgt == some c.name) &&
    (match lookupTM tm c.name with
     | some ColumnType.continuous => true
     | some ColumnType.categorical => true
     | some ColumnType.low_card_int => true
     | some ColumnType.high_card_categorical => true
     | _ => false)

/-- The eligible columns of a table, in table order. -/
def eligibleCols (t : Table) (tm : TypeMap) (tgt : Option String) : List Column :=
  t.cols.filter (plotEligible tm tgt)

/-- Numeric encoding of a column for the relevance score: numbers are kept,
other values are encoded by their first-occurrence index. -/
def encodeCol (vs : List Value) : List ℚ :=
  vs.map (fun v =>
    match v with
    | .num q => q
    | _ => ((vs.dedup.indexOf v : ℕ) : ℚ))

/-- Squared-correlation-style association between two numeric sequences. -/
def rsq (xs ys : List ℚ) : ℚ :=
  let n : ℚ := (xs.length : ℚ)
  let sx := xs.sum
  let sy := ys.sum
  let sxy := ((xs.zip ys).map (fun p => p.1 * p.2)).sum
  let sxx := (xs.map (fun x => x * x)).sum
  let syy := (ys.map (fun y => y * y)).sum
  let cov := n * sxy - sx * sy
  let vx := n * sxx - sx * sx
  let vy := n * syy - sy * sy
  if vx = 0 ∨ vy = 0 then 0 else cov * cov / (vx * vy)

/-- Modelled from the spec: the relevance score of a feature column —
correlation-like association with the target column when one is given. -/
def relevance (t : Table) (tgt : Option String) (c : Column) : ℚ :=
  match tgt with
  | none => 0
  | some tn =>
      match findColL t.cols tn with
      | none => 0
      | some tc => rsq (encodeCol c.values) (encodeCol tc.values)

/-- Ranking relation: higher relevance first. -/
def scoreRel (key : Column → ℚ) (a b : Column) : Prop :=
  key b ≤ key a

instance scoreRelDecidable (key : Column → ℚ) : DecidableRel (scoreRel key) :=
  fun a b => inferInstanceAs (Decidable (key b ≤ key a))

instance scoreRelTotal (key : Column → ℚ) : IsTotal Column (scoreRel key) :=
  ⟨fun a b => (le_total (key b) (key a)).imp id id⟩

instance scoreRelTrans (key : Column → ℚ) : IsTrans Column (scoreRel key) :=
  ⟨fun _ _ _ h1 h2 => le_trans h2 h1⟩

/-- Eligible columns ranked by decreasing relevance. -/
def rankedCols (t : Table) (tm : TypeMap) (tgt : Option String) : List Column :=
  List.insertionSort (scoreRel (relevance t tgt)) (eligibleCols t tm tgt)

/-- The columns surviving the `max_plots` budget. -/
def chosenCols (t : Table) (tm : TypeMap) (tgt : Option String) (k : ℕ) : List Column :=
  (rankedCols t tm tgt).take k

/-- Modelled from the spec: the plot-kind lookup keyed by the pair of
feature type and target type. -/
def plotKindFor (tm : TypeMap) (tgt : Option String) (c : Column) : PlotKind :=
  let fty := (lookupTM tm c.name).getD ColumnType.useless
  let tty := tgt.bind (fun tn => lookupTM tm tn)
  match tty with
  | none => if fty = ColumnType.continuous then .histogram else .bar
  | some tt =>
      if fty = ColumnType.continuous then
        (if tt = ColumnType.continuous then .scatter else .overlaidDensity)
      else
        (if tt = ColumnType.continuous then .box else .stackedBar)

/-- Modelled from the spec: `PlotDispatcher.plot` ranks the eligible
columns by relevance, truncates to the budget, and renders one PlotSpec per
surviving column. -/
def plot (t : Table) (tm : TypeMap) (tgt : Option String) (maxPlots : ℕ) : List PlotSpec :=
  (chosenCols t tm tgt maxPlots).map (fun c => ⟨c.name, plotKindFor tm tgt c⟩)

/-- C9: on a table with only `useless` or `free_text` columns — and more
generally whenever no column is eligible — `plot` returns the empty
sequence of plots. -/
theorem dabl_C9 (t : Table) (tm : TypeMap) (tgt : Option String) (k : ℕ) :
    ((∀ c ∈ t.cols,
        lookupTM tm c.name = some ColumnType.useless ∨
        lookupTM tm c.name = some ColumnType.free_text) →
      plot t tm tgt k = []) ∧
    (eligibleCols t tm tgt = [] → plot t tm tgt k = []) := by
  have hnil : eligibleCols t tm tgt = [] → plot t tm tgt k = [] := by
    intro he
    unfold plot chosenCols rankedCols
    rw [he]
    simp
  refine ⟨?_, hnil⟩
  intro h
  refine hnil ?_
  unfold eligibleCols
  refine List.filter_eq_nil_iff.mpr ?_
  intro c hc
  rcases h c hc with hy | hy <;>
    · unfold plotEligible
      rw [hy]
      simp

def tW9 : Table := ⟨[⟨"u", [.num 1, .num 1]⟩, ⟨"f", [.str "lorem", .str "ipsum"]⟩]⟩

def tmW9 : TypeMap := [("u", .useless), ("f", .free_text)]

/-- Witness for C9 at a concrete table of one useless and one free-text
column. -/
theorem dabl_C9_w : plot tW9 tmW9 none 5 = [] :=
  (dabl_C9 tW9 tmW9 none 5).1
    (by
      intro c hc
      simp only [tW9, List.mem_cons, List.not_mem_nil, or_false] at hc
      rcases hc with h | h <;> subst h
      · exact Or.inl (by decide)
      · exact Or.inr (by decide))

/-- C10: when more columns are eligible than the plot budget allows, `plot`
returns exactly `max_plots` plots, each for an eligible column, and every
column it keeps scores at least as high as every eligible column it drops —
selection is by relevance ranking, not table column order. -/
theorem dabl_C10 (t : Table) (tm : TypeMap) (tgt : Option String) (k : ℕ)
    (hk : k < (eligibleCols t tm tgt).length) :
    (plot t tm tgt k).length = k ∧
    (∀ c ∈ chosenCols t tm tgt k, c ∈ eligibleCols t tm tgt) ∧
    (∀ c ∈ chosenCols t tm tgt k, ∀ d ∈ eligibleCols t tm tgt,
      d ∉ chosenCols t tm tgt k → relevance t tgt d ≤ relevance t tgt c) := by
  have hperm : List.Perm (rankedCols t tm tgt) (eligibleCols t tm tgt) :=
    List.perm_insertionSort (scoreRel (relevance t tgt)) (eligibleCols t tm tgt)
  have hlen : (rankedCols t tm tgt).length = (eligibleCols t tm tgt).length :=
    hperm.length_eq
  have hsort : List.Sorted (scoreRel (relevance t tgt)) (rankedCols t tm tgt) :=
    List.sorted_insertionSort (scoreRel (relevance t tgt)) (eligibleCols t tm tgt)
  refine ⟨?_, ?_, ?_⟩
  · unfold plot
    rw [List.length_map]
    unfold chosenCols
    rw [List.length_take, hlen]
    omega
  · intro c hc
    exact hperm.mem_iff.mp (List.mem_of_mem_take hc)
  · intro c hc d hd hdn
    have hdr : d ∈ rankedCols t tm tgt := hperm.mem_iff.mpr hd
    have hsplit : (rankedCols t tm tgt).take k ++ (rankedCols t tm tgt).drop k =
        rankedCols t tm tgt := List.take_append_drop k (rankedCols t tm tgt)
    have hdd : d ∈ (rankedCols t tm tgt).drop k := by
      rw [← hsplit] at hdr
      rcases List.mem_append.mp hdr with h | h
      · exact absurd h hdn
      · exact h
    have hpair : List.Pairwise (scoreRel (relevance t tgt))
        ((rankedCols t tm tgt).take k ++ (rankedCols t tm tgt).drop k) := by
      rw [hsplit]
      exact hsort
    exact (List.pairwise_append.mp hpair).2.2 c hc d hdd

def tW10 : Table :=
  ⟨[⟨"a", [.str "x", .str "y"]⟩, ⟨"b", [.str "x", .str "x"]⟩, ⟨"t", [.num 1, .num 2]⟩]⟩

def tmW10 : TypeMap := [("a", .categorical), ("b", .categorical), ("t", .target)]

/-- Witness for C10: with two eligible categorical columns and a budget of
one, exactly one plot survives and it scores at least the dropped column. -/
theorem dabl_C10_w :
    (plot tW10 tmW10 (some "t") 1).length = 1 ∧
    (∀ c ∈ chosenCols tW10 tmW10 (some "t") 1, c ∈ eligibleCols tW10 tmW10 (some "t")) ∧
    (∀ c ∈ chosenCols tW10 tmW10 (some "t") 1, ∀ d ∈ eligibleCols tW10 tmW10 (some "t"),
      d ∉ chosenCols tW10 tmW10 (some "t") 1 →
      relevance tW10 (some "t") d ≤ relevance tW10 (some "t") c) :=
  dabl_C10 tW10 tmW10 (some "t") 1 (by decide)

end Dabl
